import Mathlib

/-!
Verification of the metadata-merge, format-summary, change-tracking and
meta-diff logic of this repository.

The Python sources are shallowly embedded:
  - Python dicts become association lists (`List (String × β)`), preserving
    insertion order, with first-match lookup;
  - Python strings that are parsed character by character become `List Char`;
  - fallible code returns `Except`;
  - external helper functions that live in modules outside the excerpt
    (`equivalent_copc_pdrf`, `get_record_length_from_pdrf`,
    `get_schema_from_pdrf` from `schema_util`) are taken as arbitrary
    function parameters, so every theorem quantifies over them.
-/

set_option autoImplicit false
set_option linter.unusedSectionVars false

/-! ## Python dict primitives -/

/-- First-match lookup in an insertion-ordered association list
(the embedding of `d[k]` / `k in d` on a Python dict with unique keys). -/
def dlookup {β : Type} : List (String × β) → String → Option β
  | [], _ => none
  | (k, v) :: rest, key => if k = key then some v else dlookup rest key

/-- Replace the value stored at a key, keeping its position
(the embedding of `d[k] = v` for a key already present). -/
def dictSet {β : Type} : List (String × β) → String → β → List (String × β)
  | [], _, _ => []
  | (k, v) :: rest, key, nv =>
      if k = key then (k, nv) :: dictSet rest key nv else (k, v) :: dictSet rest key nv

theorem dlookup_append_sing_self {β : Type} (d : List (String × β)) (key : String) (v : β)
    (h : dlookup d key = none) : dlookup (d ++ [(key, v)]) key = some v := by
  induction d with
  | nil => simp [dlookup]
  | cons kv rest ih =>
      obtain ⟨k, w⟩ := kv
      by_cases hk : k = key
      · simp [dlookup, hk] at h
      · simp only [dlookup, List.cons_append, if_neg hk] at h ⊢
        exact ih h

theorem dlookup_append_sing_ne {β : Type} (d : List (String × β)) (key k' : String) (v : β)
    (h : k' ≠ key) : dlookup (d ++ [(key, v)]) k' = dlookup d k' := by
  induction d with
  | nil => simp [dlookup, Ne.symm h]
  | cons kv rest ih =>
      obtain ⟨k, w⟩ := kv
      by_cases hk : k = k'
      · simp [dlookup, hk]
      · simp only [dlookup, List.cons_append, if_neg hk]
        exact ih

theorem dlookup_dictSet_self {β : Type} (d : List (String × β)) (key : String) (nv : β) :
    dlookup (dictSet d key nv) key =
      match dlookup d key with
      | some _ => some nv
      | none => none := by
  induction d with
  | nil => simp [dlookup, dictSet]
  | cons kv rest ih =>
      obtain ⟨k, w⟩ := kv
      by_cases hk : k = key
      · simp [dlookup, dictSet, hk]
      · simp only [dictSet, if_neg hk, dlookup]
        exact ih

theorem dlookup_dictSet_ne {β : Type} (d : List (String × β)) (key k' : String) (nv : β)
    (h : k' ≠ key) : dlookup (dictSet d key nv) k' = dlookup d k' := by
  induction d with
  | nil => simp [dictSet]
  | cons kv rest ih =>
      obtain ⟨k, w⟩ := kv
      simp only [dictSet]
      by_cases hk : k = key
      · subst hk
        simp only [if_pos rfl, dlookup, if_neg (Ne.symm h)]
        exact ih
      · simp only [if_neg hk, dlookup]
        by_cases hk' : k = k'
        · simp [hk']
        · simp only [if_neg hk']
          exact ih

/-! ## Merged metadata values

`MVal` is the value stored against one key of the merged-metadata dict:
either a plain value, or a `ListOfConflicts` of values (kart's
`list_of_conflicts.ListOfConflicts`, a list subclass). -/

inductive MVal (α : Type) where
  | scalar (v : α)
  | conflicts (l : List α)
deriving DecidableEq

section MergeEngine

variable {α : Type} [DecidableEq α]

/-- Embedding of `metadata_util._merge_metadata_field`.

    def _merge_metadata_field(output, key, value):
        if key not in output:
            output[key] = value
            return
        existing_value = output[key]
        if isinstance(existing_value, ListOfConflicts):
            if value not in existing_value:
                existing_value.append(value)
        elif existing_value != value:
            output[key] = ListOfConflicts([existing_value, value])

Incoming values are always plain tile values (never a `ListOfConflicts`),
which the `α` argument type makes explicit. -/
def merge_metadata_field (output : List (String × MVal α)) (key : String) (value : α) :
    List (String × MVal α) :=
  match dlookup output key with
  | none => output ++ [(key, .scalar value)]
  | some (.conflicts l) =>
      if value ∈ l then output else dictSet output key (.conflicts (l ++ [value]))
  | some (.scalar ev) =>
      if ev = value then output else dictSet output key (.conflicts [ev, value])

/-- One merge step on the value stored at the key (`none` = key absent). -/
def mstep : Option (MVal α) → α → MVal α
  | none, v => .scalar v
  | some (.scalar e), v => if e = v then .scalar e else .conflicts [e, v]
  | some (.conflicts l), v => if v ∈ l then .conflicts l else .conflicts (l ++ [v])

/-- Folding merge steps over a stream of incoming values for one key. -/
def mfold : Option (MVal α) → List α → Option (MVal α)
  | o, [] => o
  | o, v :: vs => mfold (some (mstep o v)) vs

theorem dlookup_merge_self (d : List (String × MVal α)) (key : String) (v : α) :
    dlookup (merge_metadata_field d key v) key = some (mstep (dlookup d key) v) := by
  unfold merge_metadata_field mstep
  cases h : dlookup d key with
  | none => exact dlookup_append_sing_self d key _ h
  | some mv =>
      cases mv with
      | scalar e =>
          by_cases he : e = v
          · simp [he, h]
          · simp only [if_neg he]
            rw [dlookup_dictSet_self, h]
      | conflicts l =>
          by_cases hv : v ∈ l
          · simp [hv, h]
          · simp only [if_neg hv]
            rw [dlookup_dictSet_self, h]

theorem dlookup_merge_ne (d : List (String × MVal α)) (key k' : String) (v : α)
    (h : k' ≠ key) : dlookup (merge_metadata_field d key v) k' = dlookup d k' := by
  unfold merge_metadata_field
  cases hd : dlookup d key with
  | none => exact dlookup_append_sing_ne d key k' _ h
  | some mv =>
      cases mv with
      | scalar e =>
          by_cases he : e = v
          · simp [he]
          · simp only [if_neg he]
            exact dlookup_dictSet_ne d key k' _ h
      | conflicts l =>
          by_cases hv : v ∈ l
          · simp [hv]
          · simp only [if_neg hv]
            exact dlookup_dictSet_ne d key k' _ h

/-- First-seen-order deduplication, with accumulator: the order in which a
`ListOfConflicts` collects distinct values. -/
def fsAux (acc : List α) : List α → List α
  | [] => acc
  | v :: vs => fsAux (if v ∈ acc then acc else acc ++ [v]) vs

theorem mem_fsAux (x : α) : ∀ (vs acc : List α), x ∈ fsAux acc vs ↔ x ∈ acc ∨ x ∈ vs := by
  intro vs
  induction vs with
  | nil => simp [fsAux]
  | cons v vs ih =>
      intro acc
      by_cases hv : v ∈ acc
      · rw [fsAux, if_pos hv, ih]
        constructor
        · rintro (h | h)
          · exact Or.inl h
          · exact Or.inr (List.mem_cons_of_mem _ h)
        · rintro (h | h)
          · exact Or.inl h
          · rcases List.mem_cons.mp h with h | h
            · exact Or.inl (h ▸ hv)
            · exact Or.inr h
      · rw [fsAux, if_neg hv, ih]
        simp only [List.mem_append, List.mem_singleton, List.mem_cons]
        tauto

theorem nodup_fsAux : ∀ (vs acc : List α), acc.Nodup → (fsAux acc vs).Nodup := by
  intro vs
  induction vs with
  | nil => intro acc h; exact h
  | cons v vs ih =>
      intro acc h
      by_cases hv : v ∈ acc
      · rw [fsAux, if_pos hv]; exact ih acc h
      · rw [fsAux, if_neg hv]
        refine ih _ ?_
        simp [List.nodup_append, h, hv]

theorem mfold_conflicts : ∀ (vs l : List α),
    mfold (some (.conflicts l)) vs = some (.conflicts (fsAux l vs)) := by
  intro vs
  induction vs with
  | nil => intro l; rfl
  | cons v vs ih =>
      intro l
      by_cases hv : v ∈ l
      · rw [mfold, fsAux, if_pos hv]
        simpa [mstep, hv] using ih l
      · rw [mfold, fsAux, if_neg hv]
        simpa [mstep, hv] using ih (l ++ [v])

theorem mfold_scalar : ∀ (vs : List α) (v : α),
    (∀ x ∈ vs, x = v) ∧ mfold (some (.scalar v)) vs = some (.scalar v) ∨
    (∃ w ∈ vs, w ≠ v) ∧ mfold (some (.scalar v)) vs = some (.conflicts (fsAux [v] vs)) := by
  intro vs
  induction vs with
  | nil => intro v; exact Or.inl ⟨by simp, rfl⟩
  | cons u vs ih =>
      intro v
      by_cases hu : u = v
      · subst hu
        rcases ih u with ⟨hall, heq⟩ | ⟨⟨w, hw, hne⟩, heq⟩
        · refine Or.inl ⟨?_, ?_⟩
          · intro x hx
            rcases List.mem_cons.mp hx with h | h
            · exact h
            · exact hall x h
          · rw [mfold, mstep, if_pos rfl]; exact heq
        · refine Or.inr ⟨⟨w, List.mem_cons_of_mem _ hw, hne⟩, ?_⟩
          rw [mfold, mstep, if_pos rfl, fsAux, if_pos (List.mem_singleton.mpr rfl)]
          exact heq
      · refine Or.inr ⟨⟨u, List.mem_cons_self u vs, hu⟩, ?_⟩
        rw [mfold, mstep, if_neg (fun h => hu h.symm), fsAux,
          if_neg (by simp [hu])]
        exact mfold_conflicts vs [v, u]

theorem mfold_none_nil : mfold (none : Option (MVal α)) [] = none := rfl

theorem mfold_none_cons (v : α) (vs : List α) :
    mfold none (v :: vs) = mfold (some (.scalar v)) vs := rfl

/-- The result of folding one key's value stream from an absent key:
scalar exactly when the values are nonempty and all equal, a nodup
`ListOfConflicts` in first-seen order otherwise. -/
theorem mfold_none_char (vs : List α) :
    (vs = [] ∧ mfold (none : Option (MVal α)) vs = none) ∨
    (∃ v, vs ≠ [] ∧ (∀ x ∈ vs, x = v) ∧ mfold none vs = some (.scalar v)) ∨
    (∃ v vs', vs = v :: vs' ∧ (∃ w ∈ vs', w ≠ v) ∧
      mfold none vs = some (.conflicts (fsAux [v] vs'))) := by
  cases vs with
  | nil => exact Or.inl ⟨rfl, rfl⟩
  | cons v vs' =>
      rcases mfold_scalar vs' v with ⟨hall, heq⟩ | ⟨hex, heq⟩
      · refine Or.inr (Or.inl ⟨v, by simp, ?_, ?_⟩)
        · intro x hx
          rcases List.mem_cons.mp hx with h | h
          · exact h
          · exact hall x h
        · rw [mfold_none_cons]; exact heq
      · refine Or.inr (Or.inr ⟨v, vs', rfl, hex, ?_⟩)
        rw [mfold_none_cons]; exact heq

end MergeEngine

/-! ## Python values stored in a format.json descriptor

`JVal` embeds the scalar JSON values a format descriptor holds: strings
(as `List Char`, since some are parsed character by character), numbers,
and Python `None`. -/

inductive JVal where
  | jnull
  | jstr (s : List Char)
  | jnum (n : Int)
deriving DecidableEq

/-- A format descriptor: the embedding of the Python dict stored at
`format.json` (insertion-ordered, string keys). -/
def FormatInfo : Type := List (String × JVal)

instance : DecidableEq FormatInfo := by unfold FormatInfo; infer_instance

/-- Truthiness of a `JVal`, as Python evaluates `if format_info["optimization"]:`. -/
def pyTruthy : JVal → Bool
  | .jnull => false
  | .jstr s => !s.isEmpty
  | .jnum n => n != 0

/-- Rendering of a `JVal` inside an f-string. -/
def pyStrVal : JVal → List Char
  | .jnull => ['N', 'o', 'n', 'e']
  | .jstr s => s
  | .jnum n => (toString n).toList

/-- Embedding of Python `d.get(k)`: the stored value, or `None` when absent. -/
def pyGet (f : FormatInfo) (k : String) : JVal :=
  match dlookup f k with
  | some v => v
  | none => .jnull

/-! ## RewriteMetadata flags

The `IntFlag` values of `metadata_util.RewriteMetadata`, embedded as the
bit masks they are; `hasFlag` embeds Python's `flag in flags` test
(`flags & flag == flag`). -/

namespace RewriteMetadata

def NO_REWRITE : Nat := 0x0
def AS_IF_CONVERTED_TO_COPC : Nat := 0x1
def DROP_OPTIMIZATION : Nat := 0x2
def DROP_FORMAT : Nat := 0x4
def DROP_SCHEMA : Nat := 0x8

end RewriteMetadata

def hasFlag (flags flag : Nat) : Bool := flags &&& flag == flag

/-- A schema descriptor value: either the literal empty dict `{}` that
`rewrite_schema` returns when the schema is dropped, or a real schema
(kept abstract: its structure is never inspected by the code under
verification). -/
inductive SchemaDescriptor (σ : Type) where
  | empty
  | dims (s : σ)
deriving DecidableEq

/-- One tile's extracted metadata: the three dataset-homogenous meta items.
The tile-specific `"tile"` entry is never merged and is omitted. -/
structure TileMetadata (σ κ : Type) where
  format_json : FormatInfo
  schema_json : SchemaDescriptor σ
  crs_wkt : κ

section Rewrite

variable {σ κ : Type}

/-- Embedding of `metadata_util.rewrite_format`.

`ecp` and `grl` stand for `equivalent_copc_pdrf` and
`get_record_length_from_pdrf` from `kart.point_cloud.schema_util`, which
is outside the excerpt: they are arbitrary function parameters here.
A missing `"pointDataRecordFormat"` key is a Python `KeyError`, embedded
as `Except.error`. -/
def rewrite_format (ecp grl : JVal → JVal) (tile_metadata : TileMetadata σ κ)
    (rewrite_metadata : Nat) : Except Unit FormatInfo :=
  let orig_format := tile_metadata.format_json
  if hasFlag rewrite_metadata RewriteMetadata.DROP_FORMAT then .ok []
  else if hasFlag rewrite_metadata RewriteMetadata.DROP_OPTIMIZATION then
    .ok (orig_format.filter (fun kv => !(kv.1.toList.take 12 == "optimization".toList)))
  else if hasFlag rewrite_metadata RewriteMetadata.AS_IF_CONVERTED_TO_COPC then
    match dlookup orig_format "pointDataRecordFormat" with
    | none => .error ()
    | some orig_pdrf =>
        let new_pdrf := ecp orig_pdrf
        .ok [("compression", .jstr ['l', 'a', 'z']),
             ("lasVersion", .jstr ['1', '.', '4']),
             ("optimization", .jstr ['c', 'o', 'p', 'c']),
             ("optimizationVersion", .jstr ['1', '.', '0']),
             ("pointDataRecordFormat", new_pdrf),
             ("pointDataRecordLength", grl new_pdrf)]
  else .ok orig_format

/-- Embedding of `metadata_util.rewrite_schema`.

`gsp` stands for `schema_util.get_schema_from_pdrf` (outside the excerpt)
and `ecp` for `equivalent_copc_pdrf`, as in `rewrite_format`. -/
def rewrite_schema (gsp : JVal → σ) (ecp : JVal → JVal) (tile_metadata : TileMetadata σ κ)
    (rewrite_metadata : Nat) : Except Unit (SchemaDescriptor σ) :=
  if hasFlag rewrite_metadata RewriteMetadata.DROP_SCHEMA then .ok .empty
  else
    let orig_schema := tile_metadata.schema_json
    if hasFlag rewrite_metadata RewriteMetadata.AS_IF_CONVERTED_TO_COPC then
      match dlookup tile_metadata.format_json "pointDataRecordFormat" with
      | none => .error ()
      | some orig_pdrf => .ok (.dims (gsp (ecp orig_pdrf)))
    else .ok orig_schema

/-- The value type of the merged-metadata dict: a format descriptor at
`"format.json"`, a schema descriptor at `"schema.json"`, a CRS value at
`"crs.wkt"`. -/
abbrev MergedVal (σ κ : Type) : Type := Sum FormatInfo (Sum (SchemaDescriptor σ) κ)

variable [DecidableEq σ] [DecidableEq κ]

/-- The fold of `rewrite_and_merge_metadata` over the tile list. Python
evaluates `rewrite_format` / `rewrite_schema` per tile and merges the
three fields into the shared `result` dict in order; an exception from a
rewrite aborts the whole call, so the interleaving of the (pure) merge
calls with the rewrite calls is observationally the sequence below. -/
def rewrite_and_merge_go (ecp grl : JVal → JVal) (gsp : JVal → σ) (rewrite_metadata : Nat) :
    List (TileMetadata σ κ) → List (String × MVal (MergedVal σ κ)) →
      Except Unit (List (String × MVal (MergedVal σ κ)))
  | [], result => .ok result
  | t :: ts, result =>
      match rewrite_format ecp grl t rewrite_metadata with
      | .error e => .error e
      | .ok f =>
          match rewrite_schema gsp ecp t rewrite_metadata with
          | .error e => .error e
          | .ok s =>
              rewrite_and_merge_go ecp grl gsp rewrite_metadata ts
                (merge_metadata_field
                  (merge_metadata_field
                    (merge_metadata_field result "format.json" (Sum.inl f))
                    "schema.json" (Sum.inr (Sum.inl s)))
                  "crs.wkt" (Sum.inr (Sum.inr t.crs_wkt)))

/-- Embedding of `metadata_util.rewrite_and_merge_metadata`. -/
def rewrite_and_merge_metadata (ecp grl : JVal → JVal) (gsp : JVal → σ)
    (tile_metadata_list : List (TileMetadata σ κ)) (rewrite_metadata : Nat) :
    Except Unit (List (String × MVal (MergedVal σ κ))) :=
  rewrite_and_merge_go ecp grl gsp rewrite_metadata tile_metadata_list []

/-- The per-tile rewritten formats, when every rewrite succeeds. -/
def rewriteFormats (ecp grl : JVal → JVal) (rewrite_metadata : Nat) :
    List (TileMetadata σ κ) → Except Unit (List FormatInfo)
  | [] => .ok []
  | t :: ts =>
      match rewrite_format ecp grl t rewrite_metadata,
            rewriteFormats ecp grl rewrite_metadata ts with
      | .ok f, .ok fs => .ok (f :: fs)
      | .error e, _ => .error e
      | _, .error e => .error e

/-- The per-tile rewritten schemas, when every rewrite succeeds. -/
def rewriteSchemas (gsp : JVal → σ) (ecp : JVal → JVal) (rewrite_metadata : Nat) :
    List (TileMetadata σ κ) → Except Unit (List (SchemaDescriptor σ))
  | [] => .ok []
  | t :: ts =>
      match rewrite_schema gsp ecp t rewrite_metadata,
            rewriteSchemas gsp ecp rewrite_metadata ts with
      | .ok s, .ok ss => .ok (s :: ss)
      | .error e, _ => .error e
      | _, .error e => .error e

/-- The stream of values merged into one key of the result dict. -/
def keyVals (k : String) (fs : List FormatInfo) (ss : List (SchemaDescriptor σ))
    (cs : List κ) : List (MergedVal σ κ) :=
  if k = "format.json" then fs.map Sum.inl
  else if k = "schema.json" then ss.map (fun s => Sum.inr (Sum.inl s))
  else if k = "crs.wkt" then cs.map (fun c => Sum.inr (Sum.inr c))
  else []

theorem keyVals_format (fs : List FormatInfo) (ss : List (SchemaDescriptor σ)) (cs : List κ) :
    keyVals "format.json" fs ss cs = fs.map Sum.inl := rfl

theorem keyVals_schema (fs : List FormatInfo) (ss : List (SchemaDescriptor σ)) (cs : List κ) :
    keyVals "schema.json" fs ss cs = ss.map (fun s => Sum.inr (Sum.inl s)) := rfl

theorem keyVals_crs (fs : List FormatInfo) (ss : List (SchemaDescriptor σ)) (cs : List κ) :
    keyVals "crs.wkt" fs ss cs = cs.map (fun c => Sum.inr (Sum.inr c)) := rfl

theorem keyVals_other (k : String) (fs : List FormatInfo) (ss : List (SchemaDescriptor σ))
    (cs : List κ) (h1 : k ≠ "format.json") (h2 : k ≠ "schema.json") (h3 : k ≠ "crs.wkt") :
    keyVals k fs ss cs = [] := by
  simp [keyVals, h1, h2, h3]

theorem rewrite_and_merge_go_spec (ecp grl : JVal → JVal) (gsp : JVal → σ)
    (pol : Nat) :
    ∀ (ts : List (TileMetadata σ κ)) (acc m : List (String × MVal (MergedVal σ κ))),
      rewrite_and_merge_go ecp grl gsp pol ts acc = .ok m →
      ∃ fs ss, rewriteFormats ecp grl pol ts = .ok fs ∧
        rewriteSchemas gsp ecp pol ts = .ok ss ∧
        ∀ k, dlookup m k = mfold (dlookup acc k) (keyVals k fs ss (ts.map TileMetadata.crs_wkt)) := by
  intro ts
  induction ts with
  | nil =>
      intro acc m h
      simp only [rewrite_and_merge_go] at h
      cases h
      exact ⟨[], [], rfl, rfl, fun k => by simp [keyVals, mfold]⟩
  | cons t ts ih =>
      intro acc m h
      simp only [rewrite_and_merge_go] at h
      cases hf : rewrite_format ecp grl t pol with
      | error e => rw [hf] at h; cases h
      | ok f =>
          rw [hf] at h
          cases hs : rewrite_schema gsp ecp t pol with
          | error e => rw [hs] at h; cases h
          | ok s =>
              rw [hs] at h
              obtain ⟨fs, ss, hfs, hss, hk⟩ := ih _ m h
              refine ⟨f :: fs, s :: ss, ?_, ?_, ?_⟩
              · simp [rewriteFormats, hf, hfs]
              · simp [rewriteSchemas, hs, hss]
              · intro k
                rw [hk k]
                by_cases h1 : k = "format.json"
                · subst h1
                  rw [keyVals_format, keyVals_format, List.map_cons]
                  rw [dlookup_merge_ne _ "crs.wkt" "format.json" _ (by decide),
                    dlookup_merge_ne _ "schema.json" "format.json" _ (by decide),
                    dlookup_merge_self]
                  rfl
                by_cases h2 : k = "schema.json"
                · subst h2
                  rw [keyVals_schema, keyVals_schema, List.map_cons]
                  rw [dlookup_merge_ne _ "crs.wkt" "schema.json" _ (by decide),
                    dlookup_merge_self,
                    dlookup_merge_ne _ "format.json" "schema.json" _ (by decide)]
                  rfl
                by_cases h3 : k = "crs.wkt"
                · subst h3
                  rw [keyVals_crs, keyVals_crs, List.map_cons]
                  rw [dlookup_merge_self,
                    dlookup_merge_ne _ "schema.json" "crs.wkt" _ (by decide),
                    dlookup_merge_ne _ "format.json" "crs.wkt" _ (by decide)]
                  rfl
                · rw [keyVals_other k fs ss _ h1 h2 h3, keyVals_other k _ _ _ h1 h2 h3]
                  rw [dlookup_merge_ne _ "crs.wkt" k _ h3,
                    dlookup_merge_ne _ "schema.json" k _ h2,
                    dlookup_merge_ne _ "format.json" k _ h1]

end Rewrite

/-! ## Order-independence support -/

section PermSupport

variable {α : Type} [DecidableEq α]

theorem mfold_none_allEq (vs : List α) (v0 : α) (hne : vs ≠ []) (hall : ∀ x ∈ vs, x = v0) :
    mfold none vs = some (.scalar v0) := by
  cases vs with
  | nil => exact absurd rfl hne
  | cons v vs' =>
      have hv : v = v0 := hall v (List.mem_cons_self v vs')
      subst hv
      rw [mfold_none_cons]
      rcases mfold_scalar vs' v with ⟨_, heq⟩ | ⟨⟨w, hw, hwne⟩, _⟩
      · exact heq
      · exact absurd (hall w (List.mem_cons_of_mem _ hw)) hwne

/-- Equivalence of two merged values up to the order inside a
`ListOfConflicts`: same classification, same value (scalar case), same
set of distinct values (conflict case). -/
def OptMValEquiv : Option (MVal α) → Option (MVal α) → Prop
  | none, none => True
  | some (.scalar a), some (.scalar b) => a = b
  | some (.conflicts l1), some (.conflicts l2) => ∀ x, x ∈ l1 ↔ x ∈ l2
  | _, _ => False

theorem mfold_none_perm {vs1 vs2 : List α} (hp : vs1.Perm vs2) :
    OptMValEquiv (mfold none vs1) (mfold none vs2) := by
  have hmem : ∀ x, x ∈ vs1 ↔ x ∈ vs2 := fun x => hp.mem_iff
  rcases mfold_none_char vs1 with ⟨hnil1, he1⟩ | ⟨v, hne1, hall1, he1⟩ |
    ⟨v, vs1', heq1, ⟨w, hw, hwne⟩, he1⟩
  · subst hnil1
    have : vs2 = [] := hp.symm.eq_nil
    subst this
    exact trivial
  · have hne2 : vs2 ≠ [] := by
      intro hc
      subst hc
      exact hne1 hp.eq_nil
    have hall2 : ∀ x ∈ vs2, x = v := fun x hx => hall1 x ((hmem x).mpr hx)
    rw [he1, mfold_none_allEq vs2 v hne2 hall2]
    rfl
  · have hv1 : v ∈ vs1 := heq1 ▸ List.mem_cons_self v vs1'
    have hw1 : w ∈ vs1 := heq1 ▸ List.mem_cons_of_mem v hw
    rcases mfold_none_char vs2 with ⟨hnil2, he2⟩ | ⟨u, hne2, hall2, he2⟩ |
      ⟨u, vs2', heq2, hex2, he2⟩
    · subst hnil2
      exact absurd ((hmem v).mp hv1) (List.not_mem_nil v)
    · exact absurd ((hall2 w ((hmem w).mp hw1)).trans (hall2 v ((hmem v).mp hv1)).symm) hwne
    · rw [he1, he2]
      intro x
      rw [mem_fsAux, mem_fsAux]
      have h1 : x ∈ [v] ∨ x ∈ vs1' ↔ x ∈ vs1 := by
        subst heq1; simp [List.mem_cons]
      have h2 : x ∈ [u] ∨ x ∈ vs2' ↔ x ∈ vs2 := by
        subst heq2; simp [List.mem_cons]
      rw [h1, h2, hmem x]

theorem except_map_perm {τ β : Type} (g : τ → Except Unit β) (gmap : List τ → Except Unit (List β))
    (hnil : gmap [] = Except.ok [])
    (hcons_ok : ∀ t ts b bs, g t = .ok b → gmap ts = .ok bs → gmap (t :: ts) = .ok (b :: bs))
    (hcons_inv : ∀ t ts bs1, gmap (t :: ts) = .ok bs1 →
      ∃ b bs, g t = .ok b ∧ gmap ts = .ok bs ∧ bs1 = b :: bs) :
    ∀ {ts1 ts2 : List τ}, ts1.Perm ts2 → ∀ {bs1 : List β}, gmap ts1 = .ok bs1 →
      ∃ bs2, gmap ts2 = .ok bs2 ∧ bs1.Perm bs2 := by
  intro ts1 ts2 hp
  induction hp with
  | nil =>
      intro bs1 h1
      rw [hnil] at h1
      cases h1
      exact ⟨[], hnil, List.Perm.nil⟩
  | cons x p ih =>
      intro bs1 h1
      obtain ⟨b, bs, hgx, hts, rfl⟩ := hcons_inv _ _ _ h1
      obtain ⟨bs2, h2, hperm⟩ := ih hts
      exact ⟨b :: bs2, hcons_ok _ _ _ _ hgx h2, hperm.cons b⟩
  | swap x y l =>
      intro bs1 h1
      obtain ⟨u, bsa, hgy, hrest, rfl⟩ := hcons_inv _ _ _ h1
      obtain ⟨v, bsl, hgx, hl, rfl⟩ := hcons_inv _ _ _ hrest
      exact ⟨v :: u :: bsl, hcons_ok _ _ _ _ hgx (hcons_ok _ _ _ _ hgy hl),
        List.Perm.swap v u bsl⟩
  | trans p1 p2 ih1 ih2 =>
      intro bs1 h1
      obtain ⟨bsm, hm, pm⟩ := ih1 h1
      obtain ⟨bs2, h2, p2'⟩ := ih2 hm
      exact ⟨bs2, h2, pm.trans p2'⟩

end PermSupport

section RewritePerm

variable {σ κ : Type} [DecidableEq σ] [DecidableEq κ]

theorem rewriteFormats_cons_inv (ecp grl : JVal → JVal) (pol : Nat)
    (t : TileMetadata σ κ) (ts : List (TileMetadata σ κ)) (fs1 : List FormatInfo)
    (h : rewriteFormats ecp grl pol (t :: ts) = .ok fs1) :
    ∃ f fs, rewrite_format ecp grl t pol = .ok f ∧
      rewriteFormats ecp grl pol ts = .ok fs ∧ fs1 = f :: fs := by
  rw [rewriteFormats] at h
  split at h
  · cases h
    exact ⟨_, _, by assumption, by assumption, rfl⟩
  · cases h
  · cases h

theorem rewriteSchemas_cons_inv (gsp : JVal → σ) (ecp : JVal → JVal) (pol : Nat)
    (t : TileMetadata σ κ) (ts : List (TileMetadata σ κ)) (ss1 : List (SchemaDescriptor σ))
    (h : rewriteSchemas gsp ecp pol (t :: ts) = .ok ss1) :
    ∃ s ss, rewrite_schema gsp ecp t pol = .ok s ∧
      rewriteSchemas gsp ecp pol ts = .ok ss ∧ ss1 = s :: ss := by
  rw [rewriteSchemas] at h
  split at h
  · cases h
    exact ⟨_, _, by assumption, by assumption, rfl⟩
  · cases h
  · cases h

theorem rewriteFormats_perm (ecp grl : JVal → JVal) (pol : Nat)
    {ts1 ts2 : List (TileMetadata σ κ)} (hp : ts1.Perm ts2) {fs1 : List FormatInfo}
    (h1 : rewriteFormats ecp grl pol ts1 = .ok fs1) :
    ∃ fs2, rewriteFormats ecp grl pol ts2 = .ok fs2 ∧ fs1.Perm fs2 := by
  refine except_map_perm (fun t => rewrite_format ecp grl t pol)
    (rewriteFormats ecp grl pol) rfl ?_ (rewriteFormats_cons_inv ecp grl pol) hp h1
  intro t ts b bs hb hbs
  rw [rewriteFormats, show rewrite_format ecp grl t pol = Except.ok b from hb, hbs]

theorem rewriteSchemas_perm (gsp : JVal → σ) (ecp : JVal → JVal) (pol : Nat)
    {ts1 ts2 : List (TileMetadata σ κ)} (hp : ts1.Perm ts2) {ss1 : List (SchemaDescriptor σ)}
    (h1 : rewriteSchemas gsp ecp pol ts1 = .ok ss1) :
    ∃ ss2, rewriteSchemas gsp ecp pol ts2 = .ok ss2 ∧ ss1.Perm ss2 := by
  refine except_map_perm (fun t => rewrite_schema gsp ecp t pol)
    (rewriteSchemas gsp ecp pol) rfl ?_ (rewriteSchemas_cons_inv gsp ecp pol) hp h1
  intro t ts b bs hb hbs
  rw [rewriteSchemas, show rewrite_schema gsp ecp t pol = Except.ok b from hb, hbs]

end RewritePerm

theorem dlookup_nil {β : Type} (k : String) : dlookup ([] : List (String × β)) k = none := rfl

/-- C3: one step of `_merge_metadata_field` follows exactly the four-case
field-merge rule: absent key => insert as-is; equal existing scalar =>
no change; existing `ListOfConflicts` => append the value only when not
already present; differing scalar => replace by the two-element
`ListOfConflicts [old, new]`. -/
theorem claim_C3 {α : Type} [DecidableEq α] (output : List (String × MVal α)) (key : String)
    (value : α) :
    (dlookup output key = none →
      merge_metadata_field output key value = output ++ [(key, MVal.scalar value)]) ∧
    (∀ old, dlookup output key = some (MVal.scalar old) →
      (old = value → merge_metadata_field output key value = output) ∧
      (old ≠ value →
        merge_metadata_field output key value = dictSet output key (MVal.conflicts [old, value]))) ∧
    (∀ l, dlookup output key = some (MVal.conflicts l) →
      (value ∈ l → merge_metadata_field output key value = output) ∧
      (value ∉ l →
        merge_metadata_field output key value =
          dictSet output key (MVal.conflicts (l ++ [value])))) := by
  refine ⟨fun h => ?_, fun old h => ⟨fun he => ?_, fun hne => ?_⟩,
    fun l h => ⟨fun hm => ?_, fun hm => ?_⟩⟩
  · simp [merge_metadata_field, h]
  · simp [merge_metadata_field, h, he]
  · simp [merge_metadata_field, h, hne]
  · simp [merge_metadata_field, h, hm]
  · simp [merge_metadata_field, h, hm]

theorem claim_C3_witness :
    (merge_metadata_field ([] : List (String × MVal Nat)) "k" 5 = [] ++ [("k", MVal.scalar 5)]) ∧
    (merge_metadata_field [("k", MVal.scalar 5)] "k" 5 = [("k", MVal.scalar 5)]) ∧
    (merge_metadata_field [("k", MVal.scalar 5)] "k" 7 =
      dictSet [("k", MVal.scalar 5)] "k" (MVal.conflicts [5, 7])) ∧
    (merge_metadata_field [("k", MVal.conflicts [5, 7])] "k" 7 = [("k", MVal.conflicts [5, 7])]) ∧
    (merge_metadata_field [("k", MVal.conflicts [5, 7])] "k" 9 =
      dictSet [("k", MVal.conflicts [5, 7])] "k" (MVal.conflicts ([5, 7] ++ [9]))) :=
  ⟨(claim_C3 [] "k" 5).1 rfl,
   ((claim_C3 [("k", MVal.scalar 5)] "k" 5).2.1 5 rfl).1 rfl,
   ((claim_C3 [("k", MVal.scalar 5)] "k" 7).2.1 5 rfl).2 (by decide),
   ((claim_C3 [("k", MVal.conflicts [5, 7])] "k" 7).2.2 [5, 7] rfl).1 (by decide),
   ((claim_C3 [("k", MVal.conflicts [5, 7])] "k" 9).2.2 [5, 7] rfl).2 (by decide)⟩

/-- C8: the `dropFormat` flag makes `rewrite_format` return the empty
format descriptor and the `dropSchema` flag makes `rewrite_schema`
return the empty schema descriptor, for every policy containing the
flag — in particular also when `AS_IF_CONVERTED_TO_COPC` is set, since
the drop branch is tested first (drop wins). -/
theorem claim_C8 {σ κ : Type} [DecidableEq σ] [DecidableEq κ] (ecp grl : JVal → JVal)
    (gsp : JVal → σ) (tm : TileMetadata σ κ) (pol : Nat) :
    (hasFlag pol RewriteMetadata.DROP_FORMAT = true → rewrite_format ecp grl tm pol = .ok []) ∧
    (hasFlag pol RewriteMetadata.DROP_SCHEMA = true →
      rewrite_schema gsp ecp tm pol = .ok SchemaDescriptor.empty) := by
  constructor
  · intro h
    simp [rewrite_format, h]
  · intro h
    simp [rewrite_schema, h]

theorem claim_C8_witness :
    rewrite_format id id (⟨[], SchemaDescriptor.dims 1, 0⟩ : TileMetadata Nat Nat) 13 =
      .ok [] ∧
    rewrite_schema (fun _ => 1) id (⟨[], SchemaDescriptor.dims 1, 0⟩ : TileMetadata Nat Nat) 13 =
      .ok SchemaDescriptor.empty :=
  ⟨(claim_C8 id id (fun _ => 1) ⟨[], SchemaDescriptor.dims 1, 0⟩ 13).1 (by decide),
   (claim_C8 id id (fun _ => 1) ⟨[], SchemaDescriptor.dims 1, 0⟩ 13).2 (by decide)⟩

/-- C4: in the merged metadata returned by `rewrite_and_merge_metadata`,
no `ListOfConflicts` contains two equal values; a field whose incoming
(rewritten) values have only one distinct value is stored as that scalar
value, never wrapped; and merging a further value already present in a
two-element `ListOfConflicts` leaves the set unchanged. -/
theorem claim_C4 {σ κ : Type} [DecidableEq σ] [DecidableEq κ]
    (ecp grl : JVal → JVal) (gsp : JVal → σ) (tiles : List (TileMetadata σ κ)) (pol : Nat)
    (m : List (String × MVal (MergedVal σ κ)))
    (h : rewrite_and_merge_metadata ecp grl gsp tiles pol = .ok m) :
    (∀ k l, dlookup m k = some (MVal.conflicts l) → l.Nodup) ∧
    (∀ fs f0, rewriteFormats ecp grl pol tiles = .ok fs → fs ≠ [] → (∀ f ∈ fs, f = f0) →
      dlookup m "format.json" = some (MVal.scalar (Sum.inl f0))) ∧
    (∀ ss s0, rewriteSchemas gsp ecp pol tiles = .ok ss → ss ≠ [] → (∀ s ∈ ss, s = s0) →
      dlookup m "schema.json" = some (MVal.scalar (Sum.inr (Sum.inl s0)))) ∧
    (∀ c0, tiles ≠ [] → (∀ t ∈ tiles, t.crs_wkt = c0) →
      dlookup m "crs.wkt" = some (MVal.scalar (Sum.inr (Sum.inr c0)))) ∧
    (∀ (d : List (String × MVal (MergedVal σ κ))) (k : String) (a b v : MergedVal σ κ),
      dlookup d k = some (MVal.conflicts [a, b]) → (v = a ∨ v = b) →
      dlookup (merge_metadata_field d k v) k = some (MVal.conflicts [a, b])) := by
  obtain ⟨fs, ss, hfs, hss, hk⟩ := rewrite_and_merge_go_spec ecp grl gsp pol tiles [] m h
  refine ⟨?_, ?_, ?_, ?_, ?_⟩
  · intro k l hl
    rw [hk k, dlookup_nil] at hl
    rcases mfold_none_char (keyVals k fs ss (tiles.map TileMetadata.crs_wkt)) with
      ⟨_, he⟩ | ⟨v, _, _, he⟩ | ⟨v, vs', _, _, he⟩
    · rw [he] at hl; cases hl
    · rw [he] at hl; simp at hl
    · rw [he] at hl
      injection hl with h2
      injection h2 with h3
      subst h3
      exact nodup_fsAux vs' [v] (by simp)
  · intro fs' f0 hfs' hne hall
    rw [hfs] at hfs'
    injection hfs' with he
    subst he
    rw [hk "format.json", dlookup_nil, keyVals_format]
    refine mfold_none_allEq _ _ (fun hc => hne (List.map_eq_nil_iff.mp hc)) ?_
    intro x hx
    obtain ⟨f, hf, rfl⟩ := List.mem_map.mp hx
    rw [hall f hf]
  · intro ss' s0 hss' hne hall
    rw [hss] at hss'
    injection hss' with he
    subst he
    rw [hk "schema.json", dlookup_nil, keyVals_schema]
    refine mfold_none_allEq _ _ (fun hc => hne (List.map_eq_nil_iff.mp hc)) ?_
    intro x hx
    obtain ⟨s, hs, rfl⟩ := List.mem_map.mp hx
    rw [hall s hs]
  · intro c0 hne hall
    rw [hk "crs.wkt", dlookup_nil, keyVals_crs]
    refine mfold_none_allEq _ _
      (fun hc => hne (List.map_eq_nil_iff.mp (List.map_eq_nil_iff.mp hc))) ?_
    intro x hx
    obtain ⟨c, hc, rfl⟩ := List.mem_map.mp hx
    obtain ⟨t, ht, rfl⟩ := List.mem_map.mp hc
    rw [hall t ht]
  · intro d k a b v hd hv
    have hin : v ∈ [a, b] := by rcases hv with rfl | rfl <;> simp
    have hmm : merge_metadata_field d k v = d := by
      unfold merge_metadata_field
      rw [hd]
      exact if_pos hin
    rw [hmm, hd]

def wTile1 : TileMetadata Nat Nat := ⟨[], SchemaDescriptor.dims 1, 10⟩
def wTile2 : TileMetadata Nat Nat := ⟨[], SchemaDescriptor.dims 1, 20⟩
def wTile3 : TileMetadata Nat Nat := ⟨[], SchemaDescriptor.dims 1, 20⟩

def wMerged : List (String × MVal (MergedVal Nat Nat)) :=
  [("format.json", MVal.scalar (Sum.inl ([] : FormatInfo))),
   ("schema.json", MVal.scalar (Sum.inr (Sum.inl (SchemaDescriptor.dims 1)))),
   ("crs.wkt", MVal.conflicts [Sum.inr (Sum.inr 10), Sum.inr (Sum.inr 20)])]

theorem claim_C4_witness :
    List.Nodup ([Sum.inr (Sum.inr 10), Sum.inr (Sum.inr 20)] : List (MergedVal Nat Nat)) ∧
    dlookup wMerged "format.json" = some (MVal.scalar (Sum.inl ([] : FormatInfo))) ∧
    dlookup (merge_metadata_field wMerged "crs.wkt" (Sum.inr (Sum.inr 20))) "crs.wkt" =
      some (MVal.conflicts [Sum.inr (Sum.inr 10), Sum.inr (Sum.inr 20)]) :=
  ⟨(claim_C4 id id (fun _ => 1) [wTile1, wTile2, wTile3] 0 wMerged rfl).1 "crs.wkt"
      [Sum.inr (Sum.inr 10), Sum.inr (Sum.inr 20)] rfl,
   (claim_C4 id id (fun _ => 1) [wTile1, wTile2, wTile3] 0 wMerged rfl).2.1
      [[], [], []] [] rfl (by decide) (by decide),
   (claim_C4 id id (fun _ => 1) [wTile1, wTile2, wTile3] 0 wMerged rfl).2.2.2.2
      wMerged "crs.wkt" (Sum.inr (Sum.inr 10)) (Sum.inr (Sum.inr 20)) (Sum.inr (Sum.inr 20))
      rfl (Or.inr rfl)⟩

/-- C5: processing the same multiset of tiles in any order yields, for
every key of the merged metadata, the same scalar-versus-ListOfConflicts
classification and the same set of distinct values; only the element
order inside a `ListOfConflicts` may differ. -/
theorem claim_C5 {σ κ : Type} [DecidableEq σ] [DecidableEq κ]
    (ecp grl : JVal → JVal) (gsp : JVal → σ) (tiles1 tiles2 : List (TileMetadata σ κ))
    (pol : Nat) (m1 m2 : List (String × MVal (MergedVal σ κ)))
    (hp : tiles1.Perm tiles2)
    (h1 : rewrite_and_merge_metadata ecp grl gsp tiles1 pol = .ok m1)
    (h2 : rewrite_and_merge_metadata ecp grl gsp tiles2 pol = .ok m2) :
    ∀ k, OptMValEquiv (dlookup m1 k) (dlookup m2 k) := by
  obtain ⟨fs1, ss1, hfs1, hss1, hk1⟩ := rewrite_and_merge_go_spec ecp grl gsp pol tiles1 [] m1 h1
  obtain ⟨fs2, ss2, hfs2, hss2, hk2⟩ := rewrite_and_merge_go_spec ecp grl gsp pol tiles2 [] m2 h2
  obtain ⟨fs2', hfs2', hpf⟩ := rewriteFormats_perm ecp grl pol hp hfs1
  rw [hfs2] at hfs2'
  injection hfs2' with he
  subst he
  obtain ⟨ss2', hss2', hps⟩ := rewriteSchemas_perm gsp ecp pol hp hss1
  rw [hss2] at hss2'
  injection hss2' with he
  subst he
  have hpc : (tiles1.map TileMetadata.crs_wkt).Perm (tiles2.map TileMetadata.crs_wkt) :=
    hp.map _
  intro k
  rw [hk1 k, hk2 k, dlookup_nil]
  by_cases e1 : k = "format.json"
  · subst e1
    rw [keyVals_format, keyVals_format]
    exact mfold_none_perm (hpf.map _)
  by_cases e2 : k = "schema.json"
  · subst e2
    rw [keyVals_schema, keyVals_schema]
    exact mfold_none_perm (hps.map _)
  by_cases e3 : k = "crs.wkt"
  · subst e3
    rw [keyVals_crs, keyVals_crs]
    exact mfold_none_perm (hpc.map _)
  · rw [keyVals_other _ _ _ _ e1 e2 e3, keyVals_other _ _ _ _ e1 e2 e3]
    exact trivial

def wM1 : List (String × MVal (MergedVal Nat Nat)) :=
  [("format.json", MVal.scalar (Sum.inl ([] : FormatInfo))),
   ("schema.json", MVal.scalar (Sum.inr (Sum.inl (SchemaDescriptor.dims 1)))),
   ("crs.wkt", MVal.conflicts [Sum.inr (Sum.inr 10), Sum.inr (Sum.inr 20)])]

def wM2 : List (String × MVal (MergedVal Nat Nat)) :=
  [("format.json", MVal.scalar (Sum.inl ([] : FormatInfo))),
   ("schema.json", MVal.scalar (Sum.inr (Sum.inl (SchemaDescriptor.dims 1)))),
   ("crs.wkt", MVal.conflicts [Sum.inr (Sum.inr 20), Sum.inr (Sum.inr 10)])]

theorem claim_C5_witness :
    OptMValEquiv (dlookup wM1 "crs.wkt") (dlookup wM2 "crs.wkt") :=
  claim_C5 id id (fun _ => 1) [wTile1, wTile2] [wTile2, wTile1] 0 wM1 wM2
    (List.Perm.swap wTile2 wTile1 []) rfl rfl "crs.wkt"

/-! ## Format summary and its inverse helpers -/

def lasChars : List Char := ['l', 'a', 's']
def lazChars : List Char := ['l', 'a', 'z']
def copcChars : List Char := ['c', 'o', 'p', 'c']

/-- Prefix test on character lists. -/
def isPrefixOfCL : List Char → List Char → Bool
  | [], _ => true
  | _ :: _, [] => false
  | p :: ps, c :: cs => p == c && isPrefixOfCL ps cs

/-- Embedding of Python's substring test `pat in s`. -/
def hasSubstr (pat : List Char) : List Char → Bool
  | [] => isPrefixOfCL pat []
  | c :: rest => isPrefixOfCL pat (c :: rest) || hasSubstr pat rest

/-- Character class `[0-9\.]` of the `la[sz]-([0-9\.]+)` regex. -/
def isVersionChar (c : Char) : Bool := c.isDigit || c == '.'

/-- Embedding of `re.match(r"la[sz]-([0-9\.]+)", s, re.IGNORECASE)`:
anchored at the start, case-insensitive on the letters, returning the
first capture group (the maximal nonempty run of digits and dots). -/
def matchLasVersion (s : List Char) : Option (List Char) :=
  match s with
  | c1 :: c2 :: c3 :: c4 :: rest =>
      if (c1 == 'l' || c1 == 'L') && (c2 == 'a' || c2 == 'A') &&
          (c3 == 's' || c3 == 'S' || c3 == 'z' || c3 == 'Z') && c4 == '-' then
        if (rest.takeWhile isVersionChar).isEmpty then none
        else some (rest.takeWhile isVersionChar)
      else none
  | _ => none

/-- Embedding of `metadata_util.get_format_summary`.

The source first replaces `format_info` by `format_info["format.json"]`
when that key is present; in this embedding the argument is already the
flat format descriptor, whose (scalar) values cannot be subscripted
further, so that branch is an error, and a missing key is a `KeyError`
(`Except.error`). -/
def get_format_summary (format_info : FormatInfo) : Except Unit (List Char) :=
  match dlookup format_info "format.json" with
  | some _ => .error ()
  | none =>
      match dlookup format_info "compression", dlookup format_info "lasVersion" with
      | some comp, some ver =>
          match dlookup format_info "optimization" with
          | none => .error ()
          | some opt =>
              if pyTruthy opt then
                match dlookup format_info "optimizationVersion" with
                | none => .error ()
                | some optVer =>
                    .ok (pyStrVal comp ++ '-' :: pyStrVal ver ++ '/' ::
                      (pyStrVal opt ++ '-' :: pyStrVal optVer))
              else .ok (pyStrVal comp ++ '-' :: pyStrVal ver)
      | _, _ => .error ()

/-- The argument of `is_copc` / `get_las_version` / `extract_format`: a
Python value that is either a dict, a string, or something else. -/
inductive TileFormatArg where
  | fdict (f : FormatInfo)
  | fstr (s : List Char)
  | fother (v : JVal)

/-- A dict value viewed as a `TileFormatArg`. -/
def jvalToArg : JVal → TileFormatArg
  | .jstr s => .fstr s
  | v => .fother v

/-- Embedding of `metadata_util.extract_format`: a dict argument is
unwrapped through its `"format.json"` or `"format"` entry when present
(in this scalar-valued embedding the unwrapped value is a string or other
scalar); any other argument is returned unchanged. -/
def extract_format : TileFormatArg → TileFormatArg
  | .fdict f =>
      match dlookup f "format.json" with
      | some v => jvalToArg v
      | none =>
          match dlookup f "format" with
          | some v => jvalToArg v
          | none => .fdict f
  | .fstr s => .fstr s
  | .fother v => .fother v

/-- Embedding of `metadata_util.is_copc`: on a dict,
`tile_format.get("optimization") == "copc"`; on a string, the substring
test `"copc" in tile_format`; otherwise `ValueError("Bad tile format")`. -/
def is_copc (tile_format : TileFormatArg) : Except Unit Bool :=
  match extract_format tile_format with
  | .fdict f => .ok (pyGet f "optimization" == JVal.jstr copcChars)
  | .fstr s => .ok (hasSubstr copcChars s)
  | .fother _ => .error ()

/-- Embedding of `metadata_util.get_las_version`: on a dict,
`tile_format.get("lasVersion")`; on a string, the anchored
`la[sz]-([0-9\.]+)` match, raising `ValueError` when it fails;
otherwise `ValueError`. -/
def get_las_version (tile_format : TileFormatArg) : Except Unit JVal :=
  match extract_format tile_format with
  | .fdict f => .ok (pyGet f "lasVersion")
  | .fstr s =>
      match matchLasVersion s with
      | some v => .ok (.jstr v)
      | none => .error ()
  | .fother _ => .error ()

/-- A well-formed format descriptor, as produced by
`extract_pc_tile_metadata` and `rewrite_format`: lowercase `las`/`laz`
compression, a nonempty version of digits and dots, and an
`optimization` entry that is either `None` or `"copc"` (with some
`optimizationVersion` string present in the latter case). -/
def validFormat (f : FormatInfo) : Bool :=
  (dlookup f "format.json").isNone &&
  (match dlookup f "compression" with
   | some (.jstr c) => c == lasChars || c == lazChars
   | _ => false) &&
  (match dlookup f "lasVersion" with
   | some (.jstr v) => !v.isEmpty && v.all isVersionChar
   | _ => false) &&
  (match dlookup f "optimization" with
   | some .jnull => true
   | some (.jstr o) =>
       o == copcChars &&
       (match dlookup f "optimizationVersion" with
        | some (.jstr _) => true
        | _ => false)
   | _ => false)

theorem isPrefixOfCL_append (p t : List Char) : isPrefixOfCL p (p ++ t) = true := by
  induction p with
  | nil => rfl
  | cons c cs ih => simp [isPrefixOfCL, ih]

theorem hasSubstr_of_prefix (p s : List Char) (h : isPrefixOfCL p s = true) :
    hasSubstr p s = true := by
  cases s with
  | nil => exact h
  | cons c rest => simp [hasSubstr, h]

theorem hasSubstr_cons_right (p : List Char) (c : Char) (s : List Char)
    (h : hasSubstr p s = true) : hasSubstr p (c :: s) = true := by
  simp [hasSubstr, h]

theorem hasSubstr_append_right (p s1 s2 : List Char) (h : hasSubstr p s2 = true) :
    hasSubstr p (s1 ++ s2) = true := by
  induction s1 with
  | nil => exact h
  | cons c cs ih => exact hasSubstr_cons_right p c (cs ++ s2) ih

theorem hasSubstr_head_notmem (p : List Char) (c0 : Char) :
    ∀ s : List Char, c0 ∉ s → hasSubstr (c0 :: p) s = false := by
  intro s
  induction s with
  | nil => intro _; rfl
  | cons c rest ih =>
      intro h
      have hc : c0 ≠ c := fun hc => h (hc ▸ List.mem_cons_self c rest)
      have h2 : c0 ∉ rest := fun hm => h (List.mem_cons_of_mem c hm)
      simp [hasSubstr, isPrefixOfCL, hc, ih h2]

theorem takeWhile_all {p : Char → Bool} : ∀ l : List Char, (∀ c ∈ l, p c = true) →
    l.takeWhile p = l := by
  intro l
  induction l with
  | nil => intro _; rfl
  | cons c cs ih =>
      intro h
      rw [List.takeWhile_cons, h c (List.mem_cons_self c cs)]
      rw [ih (fun x hx => h x (List.mem_cons_of_mem c hx))]
      simp

theorem takeWhile_append_stop {p : Char → Bool} (d : Char) (rest : List Char)
    (hd : p d = false) : ∀ l : List Char, (∀ c ∈ l, p c = true) →
    (l ++ d :: rest).takeWhile p = l := by
  intro l
  induction l with
  | nil => intro _; simp [List.takeWhile_cons, hd]
  | cons c cs ih =>
      intro h
      rw [List.cons_append, List.takeWhile_cons, h c (List.mem_cons_self c cs)]
      rw [ih (fun x hx => h x (List.mem_cons_of_mem c hx))]
      simp

def exLas12 : FormatInfo :=
  [("compression", JVal.jstr lasChars), ("lasVersion", JVal.jstr ['1', '.', '2']),
   ("optimization", JVal.jnull), ("optimizationVersion", JVal.jnull),
   ("pointDataRecordFormat", JVal.jnum 3), ("pointDataRecordLength", JVal.jnum 34)]

def exLazCopc : FormatInfo :=
  [("compression", JVal.jstr lazChars), ("lasVersion", JVal.jstr ['1', '.', '4']),
   ("optimization", JVal.jstr copcChars), ("optimizationVersion", JVal.jstr ['1', '.', '0']),
   ("pointDataRecordFormat", JVal.jnum 6), ("pointDataRecordLength", JVal.jnum 30)]

/-- C6: for every valid format descriptor `f`, the summary succeeds,
`is_copc` on the summary string is true exactly when `f`'s optimization
entry is non-null, and `get_las_version` on the summary string returns
`f`'s `lasVersion`; the two worked examples summarize to `las-1.2` and
`laz-1.4/copc-1.0`. -/
theorem claim_C6 :
    (∀ f : FormatInfo, validFormat f = true →
      (get_format_summary f).isOk = true ∧
      ∀ s, get_format_summary f = .ok s →
        is_copc (TileFormatArg.fstr s) = .ok (pyGet f "optimization" != JVal.jnull) ∧
        get_las_version (TileFormatArg.fstr s) = .ok (pyGet f "lasVersion")) ∧
    get_format_summary exLas12 = .ok ['l', 'a', 's', '-', '1', '.', '2'] ∧
    get_format_summary exLazCopc =
      .ok ['l', 'a', 'z', '-', '1', '.', '4', '/', 'c', 'o', 'p', 'c', '-', '1', '.', '0'] := by
  refine ⟨?_, by rfl, by rfl⟩
  intro f hv
  simp only [validFormat, Bool.and_eq_true] at hv
  obtain ⟨⟨⟨hj, hcomp0⟩, hver0⟩, hopt0⟩ := hv
  have hjn : dlookup f "format.json" = none := Option.isNone_iff_eq_none.mp hj
  cases hcomp : dlookup f "compression" with
  | none => rw [hcomp] at hcomp0; exact absurd hcomp0 Bool.false_ne_true
  | some cv =>
  rw [hcomp] at hcomp0
  cases cv with
  | jnull => exact absurd hcomp0 Bool.false_ne_true
  | jnum n => exact absurd hcomp0 Bool.false_ne_true
  | jstr c =>
  have hcdisj : c = lasChars ∨ c = lazChars := by
    rcases Bool.or_eq_true_iff.mp hcomp0 with h | h
    · exact Or.inl (by simpa using h)
    · exact Or.inr (by simpa using h)
  cases hver : dlookup f "lasVersion" with
  | none => rw [hver] at hver0; exact absurd hver0 Bool.false_ne_true
  | some vv =>
  rw [hver] at hver0
  cases vv with
  | jnull => exact absurd hver0 Bool.false_ne_true
  | jnum n => exact absurd hver0 Bool.false_ne_true
  | jstr ver =>
  rw [Bool.and_eq_true] at hver0
  obtain ⟨hvne0, hvall0⟩ := hver0
  have hvne : ver.isEmpty = false := by
    revert hvne0; cases ver.isEmpty <;> simp
  have hvall : ∀ ch ∈ ver, isVersionChar ch = true := by
    intro ch hch
    exact List.all_eq_true.mp hvall0 ch hch
  have hpgv : pyGet f "lasVersion" = JVal.jstr ver := by unfold pyGet; rw [hver]
  have hnoc : 'c' ∉ c ++ '-' :: ver := by
    intro hm
    rcases List.mem_append.mp hm with hm | hm
    · rcases hcdisj with rfl | rfl
      · revert hm; decide
      · revert hm; decide
    · rcases List.mem_cons.mp hm with hm | hm
      · exact absurd hm (by decide)
      · exact absurd (hvall 'c' hm) (by decide)
  cases hopt : dlookup f "optimization" with
  | none => rw [hopt] at hopt0; exact absurd hopt0 Bool.false_ne_true
  | some ov =>
  rw [hopt] at hopt0
  cases ov with
  | jnum n => exact absurd hopt0 Bool.false_ne_true
  | jnull =>
      -- no optimization: summary is `<compression>-<lasVersion>`
      have hpgo : pyGet f "optimization" = JVal.jnull := by unfold pyGet; rw [hopt]
      have hsum : get_format_summary f = .ok (c ++ '-' :: ver) := by
        unfold get_format_summary
        rw [hjn, hcomp, hver, hopt]
        rfl
      have hic : is_copc (TileFormatArg.fstr (c ++ '-' :: ver)) = .ok false := by
        show Except.ok (hasSubstr copcChars (c ++ '-' :: ver)) = .ok false
        have hss : hasSubstr copcChars (c ++ '-' :: ver) = false :=
          hasSubstr_head_notmem ['o', 'p', 'c'] 'c' _ hnoc
        rw [hss]
      have hgl : get_las_version (TileFormatArg.fstr (c ++ '-' :: ver)) = .ok (.jstr ver) := by
        have hm : matchLasVersion (c ++ '-' :: ver) = some ver := by
          rcases hcdisj with rfl | rfl
          · show matchLasVersion ('l' :: 'a' :: 's' :: '-' :: ver) = some ver
            have h1 : matchLasVersion ('l' :: 'a' :: 's' :: '-' :: ver) =
                if (ver.takeWhile isVersionChar).isEmpty then none
                else some (ver.takeWhile isVersionChar) := rfl
            rw [h1, takeWhile_all ver hvall, hvne]
            simp
          · show matchLasVersion ('l' :: 'a' :: 'z' :: '-' :: ver) = some ver
            have h1 : matchLasVersion ('l' :: 'a' :: 'z' :: '-' :: ver) =
                if (ver.takeWhile isVersionChar).isEmpty then none
                else some (ver.takeWhile isVersionChar) := rfl
            rw [h1, takeWhile_all ver hvall, hvne]
            simp
        show (match matchLasVersion (c ++ '-' :: ver) with
          | some v => Except.ok (JVal.jstr v)
          | none => Except.error ()) = .ok (.jstr ver)
        rw [hm]
      refine ⟨by rw [hsum]; rfl, ?_⟩
      intro s hs
      rw [hsum] at hs
      injection hs with he
      subst he
      rw [hpgo, hpgv]
      exact ⟨hic, hgl⟩
  | jstr o =>
      rw [Bool.and_eq_true] at hopt0
      obtain ⟨ho, hov0⟩ := hopt0
      have ho' : o = copcChars := by simpa using ho
      subst ho'
      cases hov : dlookup f "optimizationVersion" with
      | none => rw [hov] at hov0; exact absurd hov0 Bool.false_ne_true
      | some ovv =>
      rw [hov] at hov0
      cases ovv with
      | jnull => exact absurd hov0 Bool.false_ne_true
      | jnum n => exact absurd hov0 Bool.false_ne_true
      | jstr optv =>
      have hpgo : pyGet f "optimization" = JVal.jstr copcChars := by unfold pyGet; rw [hopt]
      have hsum : get_format_summary f =
          .ok (c ++ ('-' :: ver) ++ ('/' :: (copcChars ++ '-' :: optv))) := by
        unfold get_format_summary
        rw [hjn, hcomp, hver, hopt, hov]
        rfl
      have hplist : c ++ ('-' :: ver) ++ ('/' :: (copcChars ++ '-' :: optv)) =
          c ++ ('-' :: (ver ++ ('/' :: (copcChars ++ '-' :: optv)))) := by
        simp [List.append_assoc]
      have hic : is_copc (TileFormatArg.fstr
          (c ++ ('-' :: ver) ++ ('/' :: (copcChars ++ '-' :: optv)))) = .ok true := by
        show Except.ok (hasSubstr copcChars
          (c ++ ('-' :: ver) ++ ('/' :: (copcChars ++ '-' :: optv)))) = .ok true
        rw [hplist]
        have h0 : hasSubstr copcChars (copcChars ++ '-' :: optv) = true :=
          hasSubstr_of_prefix _ _ (isPrefixOfCL_append _ _)
        have h1 := hasSubstr_cons_right copcChars '/' _ h0
        have h2 := hasSubstr_append_right copcChars ver _ h1
        have h3 := hasSubstr_cons_right copcChars '-' _ h2
        have h4 := hasSubstr_append_right copcChars c _ h3
        rw [h4]
      have hgl : get_las_version (TileFormatArg.fstr
          (c ++ ('-' :: ver) ++ ('/' :: (copcChars ++ '-' :: optv)))) = .ok (.jstr ver) := by
        have hm : matchLasVersion
            (c ++ ('-' :: ver) ++ ('/' :: (copcChars ++ '-' :: optv))) = some ver := by
          rw [hplist]
          have htw : ((ver ++ ('/' :: (copcChars ++ '-' :: optv))).takeWhile
              isVersionChar) = ver :=
            takeWhile_append_stop '/' (copcChars ++ '-' :: optv) (by decide) ver hvall
          rcases hcdisj with rfl | rfl
          · show matchLasVersion
              ('l' :: 'a' :: 's' :: '-' :: (ver ++ ('/' :: (copcChars ++ '-' :: optv)))) =
              some ver
            have h1 : matchLasVersion
                ('l' :: 'a' :: 's' :: '-' :: (ver ++ ('/' :: (copcChars ++ '-' :: optv)))) =
                if ((ver ++ ('/' :: (copcChars ++ '-' :: optv))).takeWhile
                    isVersionChar).isEmpty then none
                else some ((ver ++ ('/' :: (copcChars ++ '-' :: optv))).takeWhile
                  isVersionChar) := rfl
            rw [h1, htw, hvne]
            simp
          · show matchLasVersion
              ('l' :: 'a' :: 'z' :: '-' :: (ver ++ ('/' :: (copcChars ++ '-' :: optv)))) =
              some ver
            have h1 : matchLasVersion
                ('l' :: 'a' :: 'z' :: '-' :: (ver ++ ('/' :: (copcChars ++ '-' :: optv)))) =
                if ((ver ++ ('/' :: (copcChars ++ '-' :: optv))).takeWhile
                    isVersionChar).isEmpty then none
                else some ((ver ++ ('/' :: (copcChars ++ '-' :: optv))).takeWhile
                  isVersionChar) := rfl
            rw [h1, htw, hvne]
            simp
        show (match matchLasVersion
            (c ++ ('-' :: ver) ++ ('/' :: (copcChars ++ '-' :: optv))) with
          | some v => Except.ok (JVal.jstr v)
          | none => Except.error ()) = .ok (.jstr ver)
        rw [hm]
      refine ⟨by rw [hsum]; rfl, ?_⟩
      intro s hs
      rw [hsum] at hs
      injection hs with he
      subst he
      rw [hpgo, hpgv]
      exact ⟨hic, hgl⟩

theorem claim_C6_witness :
    (get_format_summary exLazCopc).isOk = true ∧
    is_copc (TileFormatArg.fstr
        ['l', 'a', 'z', '-', '1', '.', '4', '/', 'c', 'o', 'p', 'c', '-', '1', '.', '0']) =
      .ok (pyGet exLazCopc "optimization" != JVal.jnull) ∧
    get_las_version (TileFormatArg.fstr
        ['l', 'a', 'z', '-', '1', '.', '4', '/', 'c', 'o', 'p', 'c', '-', '1', '.', '0']) =
      .ok (pyGet exLazCopc "lasVersion") :=
  ⟨(claim_C6.1 exLazCopc (by decide)).1,
   ((claim_C6.1 exLazCopc (by decide)).2
      ['l', 'a', 'z', '-', '1', '.', '4', '/', 'c', 'o', 'p', 'c', '-', '1', '.', '0'] rfl).1,
   ((claim_C6.1 exLazCopc (by decide)).2
      ['l', 'a', 'z', '-', '1', '.', '4', '/', 'c', 'o', 'p', 'c', '-', '1', '.', '0'] rfl).2⟩

def garbageChars : List Char := ['g', 'a', 'r', 'b', 'a', 'g', 'e']

/-- C7 counterexample: the claim says that on a malformed summary string
both inverse helpers raise a format error, but `is_copc` applied to the
malformed string `"garbage"` returns the value `False` instead of
raising. -/
theorem claim_C7_counterexample :
    is_copc (TileFormatArg.fstr garbageChars) = .ok false := rfl

/-- C7 (amended): on a string argument `is_copc` never raises — it
returns whether `"copc"` occurs as a substring — while `get_las_version`
raises the format error exactly when the anchored `la[sz]-([0-9\.]+)`
match fails, and returns the captured version when it succeeds. -/
theorem claim_C7_amended (s : List Char) :
    is_copc (TileFormatArg.fstr s) = .ok (hasSubstr copcChars s) ∧
    (matchLasVersion s = none → get_las_version (TileFormatArg.fstr s) = .error ()) ∧
    (∀ v, matchLasVersion s = some v →
      get_las_version (TileFormatArg.fstr s) = .ok (.jstr v)) := by
  refine ⟨rfl, fun h => ?_, fun v h => ?_⟩
  · show (match matchLasVersion s with
      | some v => Except.ok (JVal.jstr v)
      | none => Except.error ()) = .error ()
    rw [h]
  · show (match matchLasVersion s with
      | some v => Except.ok (JVal.jstr v)
      | none => Except.error ()) = .ok (.jstr v)
    rw [h]

theorem claim_C7_witness :
    is_copc (TileFormatArg.fstr ['b', 'a', 'd']) = .ok (hasSubstr copcChars ['b', 'a', 'd']) ∧
    get_las_version (TileFormatArg.fstr ['b', 'a', 'd']) = .error () :=
  ⟨(claim_C7_amended ['b', 'a', 'd']).1, (claim_C7_amended ['b', 'a', 'd']).2.1 rfl⟩

/-! ## MySQL working copy: change-tracking triggers

State of one dataset's table in the working copy: whether each of the
three capture triggers (`sno_<table>_ins` / `_upd` / `_del`) currently
exists, plus the contents of the shared tracking table. -/

structure WcTableState where
  insTrigger : Bool
  updTrigger : Bool
  delTrigger : Bool
  snoTrack : List (String × Int)
deriving DecidableEq

/-- Embedding of `WorkingCopy_MySql._create_triggers`: executes the three
`CREATE TRIGGER` statements for the dataset. -/
def create_triggers (s : WcTableState) : WcTableState :=
  { s with insTrigger := true, updTrigger := true, delTrigger := true }

/-- Embedding of `WorkingCopy_MySql._drop_triggers`: executes the three
`DROP TRIGGER` statements for the dataset. -/
def drop_triggers (s : WcTableState) : WcTableState :=
  { s with insTrigger := false, updTrigger := false, delTrigger := false }

/-- Modelled from the spec: one `REPLACE INTO <sno_track> (table_name, pk)
VALUES (t, k)` row. The tracking table's unique key on
`(table_name, pk)` is declared in `table_defs.MySqlSnoTables`, which is
outside the excerpt; per the spec, recording is replace-on-conflict
(idempotent, deduplicating), so re-recording a present key leaves the
set unchanged. -/
def sql_replace_into (track : List (String × Int)) (table_name : String) (pk_val : Int) :
    List (String × Int) :=
  if (table_name, pk_val) ∈ track then track else track ++ [(table_name, pk_val)]

/-- An insert on the tracked table: the `AFTER INSERT` trigger, when
installed, records `(table_name, NEW.pk)`. -/
def row_insert (table_name : String) (new_pk : Int) (s : WcTableState) : WcTableState :=
  if s.insTrigger then { s with snoTrack := sql_replace_into s.snoTrack table_name new_pk }
  else s

/-- An update on the tracked table: the `AFTER UPDATE` trigger, when
installed, records `(table_name, OLD.pk)` and `(table_name, NEW.pk)`,
in that order. -/
def row_update (table_name : String) (old_pk new_pk : Int) (s : WcTableState) : WcTableState :=
  if s.updTrigger then
    { s with snoTrack :=
        sql_replace_into (sql_replace_into s.snoTrack table_name old_pk) table_name new_pk }
  else s

/-- A delete on the tracked table: the `AFTER DELETE` trigger, when
installed, records `(table_name, OLD.pk)`. -/
def row_delete (table_name : String) (old_pk : Int) (s : WcTableState) : WcTableState :=
  if s.delTrigger then { s with snoTrack := sql_replace_into s.snoTrack table_name old_pk }
  else s

/-- Embedding of `WorkingCopy_MySql._suspend_triggers`, a
`contextlib.contextmanager` generator with no try/finally:

    @contextlib.contextmanager
    def _suspend_triggers(self, sess, dataset):
        self._drop_triggers(sess, dataset)
        yield
        self._create_triggers(sess, dataset)

The triggers are dropped, then the with-block body runs. On normal
completion the generator resumes after the `yield` and recreates the
triggers; when the body raises, the exception is thrown into the
generator at the `yield`, is not caught there, and propagates, so the
line after the `yield` never runs. The body returns its exception (if
any) together with the state it leaves behind. -/
def suspend_triggers (body : WcTableState → Option Unit × WcTableState) (s : WcTableState) :
    Option Unit × WcTableState :=
  match body (drop_triggers s) with
  | (none, s2) => (none, create_triggers s2)
  | (some e, s2) => (some e, s2)

/-- C1: evaluation of `_suspend_triggers` on both exit paths, starting
from a state with all three triggers installed. A body that completes
normally ends with the triggers recreated, but a body that raises
(here: raises immediately, leaving the state as the drop left it) ends
with the exception propagated and all three triggers still dropped —
the code after the `yield` never runs, contradicting the claimed
reinstall-on-every-exit-path behaviour. -/
theorem claim_C1_eval :
    (suspend_triggers (fun s => (none, s)) ⟨true, true, true, []⟩).2.insTrigger = true ∧
    (suspend_triggers (fun s => (none, s)) ⟨true, true, true, []⟩).2.updTrigger = true ∧
    (suspend_triggers (fun s => (none, s)) ⟨true, true, true, []⟩).2.delTrigger = true ∧
    (suspend_triggers (fun s => (some (), s)) ⟨true, true, true, []⟩).1 = some () ∧
    (suspend_triggers (fun s => (some (), s)) ⟨true, true, true, []⟩).2.insTrigger = false ∧
    (suspend_triggers (fun s => (some (), s)) ⟨true, true, true, []⟩).2.updTrigger = false ∧
    (suspend_triggers (fun s => (some (), s)) ⟨true, true, true, []⟩).2.delTrigger = false :=
  ⟨rfl, rfl, rfl, rfl, rfl, rfl, rfl⟩

/-- C9: the capture triggers record keys with replace (deduplicating)
semantics — re-recording a present key is a no-op; an insert adds
`(table, newKey)`, an update adds `(table, oldKey)` and
`(table, newKey)`, a delete adds `(table, oldKey)`, and nothing else;
and the insert-5-then-update-to-7 scenario leaves the tracked-key set
exactly `[(table, 5), (table, 7)]`. -/
theorem claim_C9 :
    (∀ (track : List (String × Int)) (t : String) (k : Int),
      (t, k) ∈ track → sql_replace_into track t k = track) ∧
    (∀ (s : WcTableState) (t : String) (k : Int), s.insTrigger = true →
      ∀ e, e ∈ (row_insert t k s).snoTrack ↔ e ∈ s.snoTrack ∨ e = (t, k)) ∧
    (∀ (s : WcTableState) (t : String) (ko kn : Int), s.updTrigger = true →
      ∀ e, e ∈ (row_update t ko kn s).snoTrack ↔
        e ∈ s.snoTrack ∨ e = (t, ko) ∨ e = (t, kn)) ∧
    (∀ (s : WcTableState) (t : String) (ko : Int), s.delTrigger = true →
      ∀ e, e ∈ (row_delete t ko s).snoTrack ↔ e ∈ s.snoTrack ∨ e = (t, ko)) ∧
    (∀ t : String,
      (row_update t 5 7 (row_insert t 5 ⟨true, true, true, []⟩)).snoTrack = [(t, 5), (t, 7)]) := by
  have hmem : ∀ (track : List (String × Int)) (t : String) (k : Int) (e : String × Int),
      e ∈ sql_replace_into track t k ↔ e ∈ track ∨ e = (t, k) := by
    intro track t k e
    unfold sql_replace_into
    by_cases h : (t, k) ∈ track
    · rw [if_pos h]
      constructor
      · exact Or.inl
      · rintro (he | rfl)
        · exact he
        · exact h
    · rw [if_neg h]
      simp
  refine ⟨?_, ?_, ?_, ?_, ?_⟩
  · intro track t k h
    unfold sql_replace_into
    rw [if_pos h]
  · intro s t k hins e
    simp only [row_insert, hins, if_true]
    exact hmem s.snoTrack t k e
  · intro s t ko kn hupd e
    simp only [row_update, hupd, if_true]
    rw [hmem, hmem]
    tauto
  · intro s t ko hdel e
    simp only [row_delete, hdel, if_true]
    exact hmem s.snoTrack t ko e
  · intro t
    simp [row_insert, row_update, sql_replace_into]

theorem claim_C9_witness :
    sql_replace_into [("T", 5)] "T" 5 = [("T", 5)] ∧
    (("T", 5) ∈ (row_insert "T" 5 ⟨true, true, true, []⟩).snoTrack ↔
      ("T", 5) ∈ ([] : List (String × Int)) ∨ (("T", 5) : String × Int) = ("T", 5)) ∧
    (row_update "T" 5 7 (row_insert "T" 5 ⟨true, true, true, []⟩)).snoTrack =
      [("T", 5), ("T", 7)] :=
  ⟨claim_C9.1 [("T", 5)] "T" 5 (by decide),
   claim_C9.2.1 ⟨true, true, true, []⟩ "T" 5 rfl ("T", 5),
   claim_C9.2.2.2.2 "T"⟩

/-! ## MySQL working copy: meta-diff classifier -/

/-- The fixed exclusion list `WorkingCopy_MySql._UNSUPPORTED_META_ITEMS`. -/
def UNSUPPORTED_META_ITEMS : List String :=
  ["title", "description", "metadata/dataset.json", "metadata.xml"]

/-- Embedding of Python `s.startswith(p)`. -/
def strStartsWith (s p : String) : Bool := isPrefixOfCL p.toList s.toList

/-- Embedding of `WorkingCopy_MySql._remove_hidden_meta_diffs`: deletes
every backend-unsupported key, and then every `crs/`-prefixed key, from
the dataset-side dict `ds_meta_items` ONLY — the working-copy dict
`wc_meta_items` is passed through unmodified by this override. (The two
sequential deletion loops are two sequential filters.) -/
def remove_hidden_meta_diffs {β : Type} (ds_meta_items : List (String × β)) :
    List (String × β) :=
  (ds_meta_items.filter (fun kv => !(UNSUPPORTED_META_ITEMS.contains kv.1))).filter
    (fun kv => !(strStartsWith kv.1 "crs/"))

/-- Embedding of `WorkingCopy_MySql._is_meta_update_supported`:
`return not meta_diff` — true exactly when the meta diff is empty. -/
def is_meta_update_supported (meta_diff : List String) : Bool := meta_diff.isEmpty

/-- Modelled from the spec: the key-level meta diff between the two
snapshots. The code that builds the `DeltaDiff` handed to
`_is_meta_update_supported` lives in the working-copy base class, which
is outside the excerpt; per the spec, `MetaDiff` is "a set of changed
meta-item keys" between the dataset-committed and working-copy-observed
snapshots, computed after `_remove_hidden_meta_diffs` has pruned them.
The base-class `super()._remove_hidden_meta_diffs` step performs none of
the removals at issue here and is modelled as the identity. -/
def meta_key_diff {β : Type} [DecidableEq β] (ds wc : List (String × β)) : List String :=
  (fsAux [] (ds.map Prod.fst ++ wc.map Prod.fst)).filter
    (fun k => dlookup ds k != dlookup wc k)

/-- The full classifier pipeline as the code runs it: prune the
dataset-side snapshot, diff against the untouched working-copy snapshot,
and report supported-in-place exactly when the diff is empty. -/
def supported_in_place {β : Type} [DecidableEq β] (ds wc : List (String × β)) : Bool :=
  is_meta_update_supported (meta_key_diff (remove_hidden_meta_diffs ds) wc)

/-- The classifier as the spec words it: hidden keys are removed from
BOTH snapshots before diffing. -/
def supported_in_place_spec {β : Type} [DecidableEq β] (ds wc : List (String × β)) : Bool :=
  is_meta_update_supported
    (meta_key_diff (remove_hidden_meta_diffs ds) (remove_hidden_meta_diffs wc))

/-- A key the MySQL working copy hides from meta diffs: on the
backend-unsupported list, or `crs/`-prefixed. -/
def isHiddenKey (k : String) : Bool :=
  UNSUPPORTED_META_ITEMS.contains k || strStartsWith k "crs/"

/-- C2 counterexample: for the snapshot pair with an empty dataset side
and a working-copy side holding only the backend-unsupported key
`"title"`, the diff is confined to backend-unsupported keys, so the
claim (which removes hidden keys from both snapshots) reports the update
as supported in place — but the code removes them only from the
dataset side, leaving a non-empty diff, and reports it unsupported. -/
theorem claim_C2_counterexample :
    supported_in_place_spec ([] : List (String × Nat)) [("title", 0)] = true ∧
    supported_in_place ([] : List (String × Nat)) [("title", 0)] = false := by
  constructor
  · rfl
  · rfl

theorem dlookup_filter {β : Type} (p : String → Bool) (l : List (String × β)) (k : String) :
    dlookup (l.filter (fun kv => p kv.1)) k = if p k then dlookup l k else none := by
  induction l with
  | nil => cases hp : p k <;> simp [dlookup]
  | cons kv rest ih =>
      obtain ⟨k1, v1⟩ := kv
      by_cases hp1 : p k1
      · rw [List.filter_cons_of_pos (by simpa using hp1)]
        by_cases hk : k1 = k
        · subst hk
          simp [dlookup, hp1]
        · simp only [dlookup, if_neg hk]
          exact ih
      · rw [List.filter_cons_of_neg (by simpa using hp1)]
        by_cases hk : k1 = k
        · subst hk
          rw [ih]
          have hp1' : p k1 = false := by revert hp1; cases p k1 <;> simp
          rw [hp1']
          simp [dlookup, hp1']
        · simp only [dlookup, if_neg hk]
          exact ih

theorem dlookup_remove_hidden {β : Type} (ds : List (String × β)) (k : String) :
    dlookup (remove_hidden_meta_diffs ds) k =
      if isHiddenKey k then none else dlookup ds k := by
  unfold remove_hidden_meta_diffs isHiddenKey
  rw [dlookup_filter (fun s => !strStartsWith s "crs/"),
    dlookup_filter (fun s => !UNSUPPORTED_META_ITEMS.contains s)]
  cases hu : UNSUPPORTED_META_ITEMS.contains k <;> cases hc : strStartsWith k "crs/" <;> simp

theorem dlookup_mem_keys {β : Type} : ∀ (l : List (String × β)) (k : String) (v : β),
    dlookup l k = some v → k ∈ l.map Prod.fst := by
  intro l
  induction l with
  | nil => intro k v h; cases h
  | cons kv rest ih =>
      obtain ⟨k1, v1⟩ := kv
      intro k v h
      by_cases hk : k1 = k
      · subst hk
        exact List.mem_cons_self _ _
      · rw [dlookup, if_neg hk] at h
        exact List.mem_cons_of_mem _ (ih k v h)

/-- C2 (amended): the MySQL classifier removes the backend-unsupported
and `crs/`-prefixed keys only from the dataset-side snapshot; it reports
the meta update as supported in place if and only if the key-level diff
of the pruned dataset side against the unmodified working-copy side is
empty. Consequently a diff confined to hidden keys is reported as
in-place supported provided those keys occur only on the dataset side. -/
theorem claim_C2_amended {β : Type} [DecidableEq β] (ds wc : List (String × β))
    (hdiff : ∀ k, k ∈ ds.map Prod.fst ++ wc.map Prod.fst →
      dlookup ds k ≠ dlookup wc k → isHiddenKey k = true)
    (hwc : ∀ k, k ∈ wc.map Prod.fst → isHiddenKey k = false) :
    supported_in_place ds wc = true := by
  unfold supported_in_place is_meta_update_supported
  suffices h : meta_key_diff (remove_hidden_meta_diffs ds) wc = [] by rw [h]; rfl
  unfold meta_key_diff
  rw [List.filter_eq_nil_iff]
  intro k _
  have heq : dlookup (remove_hidden_meta_diffs ds) k = dlookup wc k := by
    rw [dlookup_remove_hidden]
    by_cases hh : isHiddenKey k = true
    · rw [if_pos hh]
      cases hwcl : dlookup wc k with
      | none => rfl
      | some v =>
          have := hwc k (dlookup_mem_keys wc k v hwcl)
          rw [this] at hh
          cases hh
    · rw [if_neg hh]
      by_cases hne : dlookup ds k = dlookup wc k
      · exact hne
      · exfalso
        have hkmem : k ∈ ds.map Prod.fst ++ wc.map Prod.fst := by
          cases hds : dlookup ds k with
          | some v => exact List.mem_append.mpr (Or.inl (dlookup_mem_keys ds k v hds))
          | none =>
              cases hwcl : dlookup wc k with
              | some v => exact List.mem_append.mpr (Or.inr (dlookup_mem_keys wc k v hwcl))
              | none => exact absurd (hds.trans hwcl.symm) hne
        exact hh (hdiff k hkmem hne)
  simp [heq]

theorem claim_C2_witness :
    supported_in_place [("title", 0), ("schema.json", 1)] [("schema.json", (1 : Nat))] = true :=
  claim_C2_amended [("title", 0), ("schema.json", 1)] [("schema.json", 1)]
    (by decide) (by decide)

/-! ## GeoPackage primary-key finder -/

/-- One row of `PRAGMA table_info(<table>)`: column name, declared type,
and the `pk` flag (0 when the column is not part of the primary key). -/
structure GpkgField where
  name : String
  type : String
  pk : Int
deriving DecidableEq

inductive PkError where
  | valueError
  | indexError
deriving DecidableEq

/-- Embedding of the loop of `gpkg.pk`: scan the `table_info` rows in
order; the first row with a truthy `pk` flag wins immediately; rows
scanned without finding one accumulate in `fields`; once the loop ends,
`fields[0]` (a Python `IndexError` on an empty table description) must
be declared exactly `INTEGER`, else
`ValueError("No valid GeoPackage primary key field found")`. -/
def pk_loop (fields : List GpkgField) : List GpkgField → Except PkError String
  | [] =>
      match fields with
      | [] => .error .indexError
      | f0 :: _ => if f0.type = "INTEGER" then .ok f0.name else .error .valueError
  | f :: rest =>
      if f.pk != 0 then .ok f.name else pk_loop (fields ++ [f]) rest

/-- Embedding of `gpkg.pk` on the list of `table_info` rows. -/
def pk (q : List GpkgField) : Except PkError String := pk_loop [] q

/-- The first row with a truthy `pk` flag, used to characterize the
early return of the loop. -/
def findPkFlag : List GpkgField → Option GpkgField
  | [] => none
  | f :: rest => if f.pk != 0 then some f else findPkFlag rest

theorem findPkFlag_some : ∀ (l : List GpkgField) (f : GpkgField),
    findPkFlag l = some f → f ∈ l ∧ f.pk ≠ 0 := by
  intro l
  induction l with
  | nil => intro f h; cases h
  | cons g rest ih =>
      intro f h
      by_cases hg : (g.pk != 0) = true
      · rw [findPkFlag, if_pos hg] at h
        injection h with he
        subst he
        exact ⟨List.mem_cons_self _ _, by simpa using hg⟩
      · rw [findPkFlag, if_neg hg] at h
        obtain ⟨hm, hp⟩ := ih f h
        exact ⟨List.mem_cons_of_mem g hm, hp⟩

theorem findPkFlag_none (l : List GpkgField) (h : ∀ g ∈ l, g.pk = 0) :
    findPkFlag l = none := by
  induction l with
  | nil => rfl
  | cons g rest ih =>
      rw [findPkFlag, if_neg (by simp [h g (List.mem_cons_self g rest)])]
      exact ih (fun x hx => h x (List.mem_cons_of_mem g hx))

theorem findPkFlag_first (l : List GpkgField) (f : GpkgField) (r : List GpkgField)
    (hl : ∀ g ∈ l, g.pk = 0) (hf : f.pk ≠ 0) : findPkFlag (l ++ f :: r) = some f := by
  induction l with
  | nil => rw [List.nil_append, findPkFlag, if_pos (by simpa using hf)]
  | cons g l' ihl =>
      rw [List.cons_append, findPkFlag,
        if_neg (by simp [hl g (List.mem_cons_self g l')])]
      exact ihl (fun x hx => hl x (List.mem_cons_of_mem g hx))

theorem pk_loop_spec : ∀ (rows fields : List GpkgField),
    pk_loop fields rows =
      match findPkFlag rows with
      | some f => .ok f.name
      | none =>
          match fields ++ rows with
          | [] => .error .indexError
          | f0 :: _ => if f0.type = "INTEGER" then .ok f0.name else .error .valueError := by
  intro rows
  induction rows with
  | nil => intro fields; simp [pk_loop, findPkFlag]
  | cons f rest ih =>
      intro fields
      by_cases hf : (f.pk != 0) = true
      · rw [pk_loop, if_pos hf, show findPkFlag (f :: rest) = some f from by
          rw [findPkFlag, if_pos hf]]
      · rw [pk_loop, if_neg hf, ih, show findPkFlag (f :: rest) = findPkFlag rest from by
          rw [findPkFlag, if_neg hf]]
        rw [show fields ++ f :: rest = (fields ++ [f]) ++ rest from by simp]

/-- C10: `pk` returns the name of the first row whose `pk` flag is
truthy when one exists; when no row is flagged, it returns the first
row's name exactly when that row's declared type is the literal string
`INTEGER` and raises `ValueError` otherwise; and every name it returns
is either a flagged row's name or the first row's name. -/
theorem claim_C10 (rows : List GpkgField) (hrows : rows ≠ []) :
    (∀ (l : List GpkgField) (f : GpkgField) (r : List GpkgField),
      rows = l ++ f :: r → (∀ g ∈ l, g.pk = 0) → f.pk ≠ 0 → pk rows = .ok f.name) ∧
    ((∀ g ∈ rows, g.pk = 0) →
      ∀ f0 r, rows = f0 :: r →
        (f0.type = "INTEGER" → pk rows = .ok f0.name) ∧
        (f0.type ≠ "INTEGER" → pk rows = .error .valueError)) ∧
    (∀ s, pk rows = .ok s →
      (∃ f ∈ rows, f.pk ≠ 0 ∧ f.name = s) ∨ (∃ f0 r, rows = f0 :: r ∧ s = f0.name)) := by
  refine ⟨?_, ?_, ?_⟩
  · intro l f r hsplit hl hf
    subst hsplit
    rw [pk, pk_loop_spec, findPkFlag_first l f r hl hf]
  · intro hall f0 r hsplit
    subst hsplit
    have hpk : pk (f0 :: r) =
        if f0.type = "INTEGER" then .ok f0.name else .error .valueError := by
      rw [pk, pk_loop_spec, findPkFlag_none _ hall]
      rfl
    constructor
    · intro hint
      rw [hpk, if_pos hint]
    · intro hint
      rw [hpk, if_neg hint]
  · intro s hs
    rw [pk, pk_loop_spec] at hs
    cases hfind : findPkFlag rows with
    | some f =>
        rw [hfind] at hs
        obtain ⟨hm, hp⟩ := findPkFlag_some rows f hfind
        injection hs with he
        exact Or.inl ⟨f, hm, hp, he⟩
    | none =>
        rw [hfind] at hs
        cases rows with
        | nil => exact absurd rfl hrows
        | cons f0 r =>
            have hs' : (if f0.type = "INTEGER" then (Except.ok f0.name : Except PkError String)
                else .error .valueError) = .ok s := hs
            by_cases hint : f0.type = "INTEGER"
            · rw [if_pos hint] at hs'
              injection hs' with he
              exact Or.inr ⟨f0, r, rfl, he.symm⟩
            · rw [if_neg hint] at hs'
              cases hs'

def wRows : List GpkgField :=
  [⟨"a", "TEXT", 0⟩, ⟨"b", "BLOB", 1⟩, ⟨"c", "TEXT", 0⟩]

theorem claim_C10_witness :
    pk wRows = .ok "b" :=
  (claim_C10 wRows (by decide)).1 [⟨"a", "TEXT", 0⟩] ⟨"b", "BLOB", 1⟩ [⟨"c", "TEXT", 0⟩]
    rfl (by decide) (by decide)
